import Mathlib

/-!
# Verification of the Composer live-vs-sim reconciliation scripts

Shallow embedding of the algorithmic core of the repository:

* `zscore.py` — backtest P&L differences, mean / population variance,
  z-score, live-delta extraction, deviation ranking;
* `530symphs.py` — local-time date bucketing, first-sample return
  normalization, union merge with forward fill;
* `all_symphs_monthly.py` — UTC date bucketing, first-after-cutoff
  normalization, union merge with blank (None) cells.

Currency amounts are modelled as `ℚ` (the scripts use Python floats, but
every claim under study is about exact arithmetic identities, ordering and
data flow, not rounding).  Calendar dates are modelled as integer day
numbers relative to 1970-01-01; ISO `YYYY-MM-DD` strings compare
lexicographically exactly as their day numbers compare numerically, so the
scripts' string comparisons are rendered as integer comparisons.
Python's stable `sorted` is rendered as `List.insertionSort`, which is also
stable; for the total orders used here the two agree elementwise.
Python dicts keyed by date with repeated assignment are rendered by their
final contents: last write per key wins.
-/

/-! ## Date bucketing -/

/-- Models `530symphs.py` line 89: `datetime.fromtimestamp(ms_timestamp / 1000)`
interprets the epoch-millisecond timestamp in the machine's **local**
timezone.  For a fixed-offset zone `tzSec` seconds east of UTC, the local
calendar day of the instant is `⌊(ms/1000 + tzSec) / 86400⌋`. -/
def dayOfMs530 (tzSec ms : Int) : Int :=
  (ms + tzSec * 1000).fdiv 86400000

/-- Models `all_symphs_monthly.py` line 77: `datetime.utcfromtimestamp(ms / 1000)`
buckets the epoch-millisecond timestamp to its UTC calendar day. -/
def dayOfMsUtc (ms : Int) : Int :=
  ms.fdiv 86400000

/-- Day number since 1970-01-01 → proleptic Gregorian `(year, month, day)`;
models Python's `date(1970, 1, 1) + timedelta(days=k)`
(`530symphs.py` line 105, `all_symphs_monthly.py` line 93) via the standard
era-decomposition algorithm for civil dates. -/
def civilFromDays (k : Int) : Int × Nat × Nat :=
  let z : Int := k + 719468
  let era : Int := z.fdiv 146097
  let doe : Nat := (z - era * 146097).toNat
  let yoe : Nat := (doe - doe / 1460 + doe / 36524 - doe / 146096) / 365
  let doy : Nat := doe - (365 * yoe + yoe / 4 - yoe / 100)
  let mp : Nat := (5 * doy + 2) / 153
  let d : Nat := doy - (153 * mp + 2) / 5 + 1
  let m : Nat := if mp < 10 then mp + 3 else mp - 9
  (((yoe : Int) + era * 400) + (if m ≤ 2 then 1 else 0), m, d)

/-! ## Sorting of (timestamp, value) pairs

`sorted(zip(live_data['epoch_ms'], live_data['deposit_adjusted_series']))`
sorts the pairs lexicographically: by timestamp, ties by value. -/

/-- Lexicographic order on (epoch-ms, valuation) pairs, as Python compares
tuples. -/
def pairLe (p q : Int × ℚ) : Prop :=
  p.1 < q.1 ∨ (p.1 = q.1 ∧ p.2 ≤ q.2)

instance : DecidableRel pairLe := fun p q => by
  unfold pairLe; infer_instance

instance : IsTotal (Int × ℚ) pairLe :=
  ⟨fun p q => by
    rcases lt_trichotomy p.1 q.1 with h | h | h
    · exact Or.inl (Or.inl h)
    · rcases le_total p.2 q.2 with h2 | h2
      · exact Or.inl (Or.inr ⟨h, h2⟩)
      · exact Or.inr (Or.inr ⟨h.symm, h2⟩)
    · exact Or.inr (Or.inl h)⟩

instance : IsTrans (Int × ℚ) pairLe :=
  ⟨fun p q r hpq hqr => by
    rcases hpq with h1 | ⟨e1, v1⟩
    · rcases hqr with h2 | ⟨e2, _⟩
      · exact Or.inl (h1.trans h2)
      · exact Or.inl (e2 ▸ h1)
    · rcases hqr with h2 | ⟨e2, v2⟩
      · exact Or.inl (e1 ▸ h2)
      · exact Or.inr ⟨e1.trans e2, v1.trans v2⟩⟩

/-- Models `sorted(zip(epoch_ms, deposit_adjusted_series))`. -/
def sortPts (pts : List (Int × ℚ)) : List (Int × ℚ) :=
  pts.insertionSort pairLe

/-! ## `zscore.py` -/

/-- Models `np.diff` on the backtest capital series
(`zscore.py` line 96: `pnl_series = np.diff(capital_values)`). -/
def pnlDiffs : List ℚ → List ℚ
  | [] => []
  | [_] => []
  | a :: b :: t => (b - a) :: pnlDiffs (b :: t)

/-- Models `np.mean` (`zscore.py` line 167). -/
def listMean (l : List ℚ) : ℚ :=
  l.sum / l.length

/-- Note `np.std` with default `ddof=0` computes the **population** variance;
`zscore.py` line 168 takes its square root.  The square root is kept
symbolic: every claim about the standard deviation or the z-score is stated
through its square. -/
def popVar (l : List ℚ) : ℚ :=
  (l.map (fun x => (x - listMean l) ^ 2)).sum / l.length

/-- Result type of `calculate_z_score`: a finite float or `float('inf')`. -/
inductive ZScoreVal
  | val (q : ℚ)
  | posInf
  deriving DecidableEq, Repr

/-- Models `zscore.py` lines 133-137:
```
def calculate_z_score(live_value, mean, std_dev):
    if std_dev == 0:
        return float('inf') if live_value != mean else 0.0
    return (live_value - mean) / std_dev
``` -/
def calculate_z_score (live_value mean std_dev : ℚ) : ZScoreVal :=
  if std_dev = 0 then
    (if live_value ≠ mean then .posInf else .val 0)
  else
    .val ((live_value - mean) / std_dev)

/-- Models `zscore.py` lines 120-124 (`get_live_pnl`): when the payload carries a
`deposit_adjusted_series` with at least two entries, the series of
**values** is sorted (`sorted(data['deposit_adjusted_series'])`) and the
difference of its last two elements is returned; otherwise `None`. -/
def get_live_pnl (series : Option (List ℚ)) : Option ℚ :=
  match series with
  | none => none
  | some l =>
    if 2 ≤ l.length then
      let s := l.insertionSort (· ≤ ·)
      some (s.getD (s.length - 1) 0 - s.getD (s.length - 2) 0)
    else none

/-- Reference semantics following the spec's words (§4.4): the live delta is
the "difference between the last two live valuation samples", samples paired
with their timestamps and "sort[ed] by timestamp ascending" (§4.1). -/
def specLiveDelta (pts : List (Int × ℚ)) : Option ℚ :=
  match (sortPts pts).reverse with
  | a :: b :: _ => some (a.2 - b.2)
  | _ => none

/-- Ranking comparator of `zscore.py` line 182:
`sorted(results, key=lambda x: abs(x['z_score']), reverse=True)`. -/
def rankRel (a b : ℚ) : Prop :=
  |b| ≤ |a|

instance : DecidableRel rankRel := fun a b => by
  unfold rankRel; infer_instance

instance : IsTotal ℚ rankRel :=
  ⟨fun a b => le_total |b| |a|⟩

instance : IsTrans ℚ rankRel :=
  ⟨fun _ _ _ h1 h2 => h2.trans h1⟩

/-- Deviation ranking: strategies sorted by absolute z-score, descending. -/
def rankZ (zs : List ℚ) : List ℚ :=
  zs.insertionSort rankRel

/-! ## `530symphs.py` — return dictionaries -/

/-- Models `530symphs.py` line 85: `live_points[0][1] if live_points else None` —
the value of the first pair after the lexicographic sort, i.e. the
earliest-timestamped sample. -/
def liveBaseline530 (pts : List (Int × ℚ)) : Option ℚ :=
  (sortPts pts).head?.map Prod.snd

/-- Contents of `live_pct_by_date` (`530symphs.py` lines 87-90) as a lookup
function: built only when the baseline exists and is positive
(`if live_baseline and live_baseline > 0`); each sorted point writes
`value/baseline - 1` under its local-time bucketed date, so the surviving
entry for a date comes from the last sorted point bucketed to it. -/
def livePct530 (tzSec : Int) (pts : List (Int × ℚ)) : Int → Option ℚ :=
  fun d =>
    match liveBaseline530 pts with
    | none => none
    | some b =>
      if 0 < b then
        (((sortPts pts).filter (fun p => dayOfMs530 tzSec p.1 == d)).getLast?).map
          (fun p => p.2 / b - 1)
      else none

/-- Key set of `live_pct_by_date`: the bucketed dates of all points (empty
when the baseline is missing or non-positive). -/
def liveDays530 (tzSec : Int) (pts : List (Int × ℚ)) : List Int :=
  match liveBaseline530 pts with
  | none => []
  | some b =>
    if 0 < b then (sortPts pts).map (fun p => dayOfMs530 tzSec p.1) else []

/-- Contents of `backtest_pct_by_date` (`530symphs.py` lines 101-107) as a
lookup function over the day-offset-keyed capital dictionary: every entry is
`value/10000 - 1` (the baseline is the hard-coded requested capital 10000);
a repeated key keeps the last write. -/
def btPct530 (ts : List (Nat × ℚ)) : Int → Option ℚ :=
  fun d =>
    ((ts.filter (fun p => (p.1 : Int) == d)).getLast?).map
      (fun p => p.2 / 10000 - 1)

/-- Key set of `backtest_pct_by_date`. -/
def btKeys530 (ts : List (Nat × ℚ)) : List Int :=
  ts.map (fun (p : Nat × ℚ) => (p.1 : Int))

/-! ## `530symphs.py` — union merge with forward fill -/

/-- One output row of `process_and_merge_data`: date plus the two optional
percentage cells (`''` in the script is rendered as `none`). -/
structure Row where
  date : Int
  live : Option ℚ
  backtest : Option ℚ
  deriving DecidableEq, Repr

/-- The scan of `530symphs.py` lines 116-133: walk the combined date list;
for each date at or after the cutoff, refresh the `last_known` trackers from
the dictionaries and append a row carrying the trackers' current values. -/
def mergeLoop (liveGet btGet : Int → Option ℚ) (cutoff : Int) :
    List Int → Option ℚ → Option ℚ → List Row
  | [], _, _ => []
  | d :: ds, lastLive, lastBt =>
    if cutoff ≤ d then
      let lastLive' := (liveGet d).orElse (fun _ => lastLive)
      let lastBt' := (btGet d).orElse (fun _ => lastBt)
      ⟨d, lastLive', lastBt'⟩ :: mergeLoop liveGet btGet cutoff ds lastLive' lastBt'
    else
      mergeLoop liveGet btGet cutoff ds lastLive lastBt

/-- Models `all_dates = sorted(list(set(live) | set(backtest)))`
(`530symphs.py` line 110). -/
def allDates (liveKeys btKeys : List Int) : List Int :=
  ((liveKeys ++ btKeys).dedup).insertionSort (· ≤ ·)

/-- Models `process_and_merge_data` of `530symphs.py` (lines 109-135), starting
from the two per-date dictionaries: scan the sorted union of their key sets
with initially-blank trackers. -/
def merge530 (liveKeys btKeys : List Int) (liveGet btGet : Int → Option ℚ)
    (cutoff : Int) : List Row :=
  mergeLoop liveGet btGet cutoff (allDates liveKeys btKeys) none none

/-- Key set of the live dictionary, handling an absent/field-less live
payload (`530symphs.py` line 83). -/
def liveDaysOpt530 (tzSec : Int) (live : Option (List (Int × ℚ))) : List Int :=
  match live with
  | none => []
  | some pts => liveDays530 tzSec pts

/-- Lookup in the live dictionary, handling an absent payload. -/
def livePctOpt530 (tzSec : Int) (live : Option (List (Int × ℚ))) : Int → Option ℚ :=
  match live with
  | none => fun _ => none
  | some pts => livePct530 tzSec pts

/-- Key set of the backtest dictionary, handling an absent payload or an
unmatched symphony id (`530symphs.py` lines 93-101). -/
def btKeysOpt530 (bt : Option (List (Nat × ℚ))) : List Int :=
  match bt with
  | none => []
  | some ts => btKeys530 ts

/-- Lookup in the backtest dictionary, handling an absent payload. -/
def btPctOpt530 (bt : Option (List (Nat × ℚ))) : Int → Option ℚ :=
  match bt with
  | none => fun _ => none
  | some ts => btPct530 ts

/-- Full `process_and_merge_data` of `530symphs.py`: `none` payloads model
missing/field-less data (lines 83, 93) and an unmatched symphony id. -/
def process530 (tzSec cutoff : Int) (live : Option (List (Int × ℚ)))
    (bt : Option (List (Nat × ℚ))) : List Row :=
  merge530 (liveDaysOpt530 tzSec live) (btKeysOpt530 bt)
    (livePctOpt530 tzSec live) (btPctOpt530 bt) cutoff

/-- Reference semantics following the spec's words for UNION_FORWARD_FILL
(§4.3): a row's cell for one side is "the tracker's current value (freshly
updated or carried forward)", i.e. the side's value at its most recent
dictionary key inside the scan window `[cutoff, d]`; blank when the side has
no key there yet.  "Most recent" is read off as the last element of the
sorted window. -/
def specLastAt (keys : List Int) (get : Int → Option ℚ) (cutoff d : Int) :
    Option ℚ :=
  (((keys.insertionSort (· ≤ ·)).filter
      (fun k => decide (cutoff ≤ k) && decide (k ≤ d))).getLast?).bind get

/-! ## `all_symphs_monthly.py` -/

/-- Live points surviving the cutoff filter of `all_symphs_monthly.py`
lines 75-78: pair-sorted, UTC-bucketed, kept when `date_str >=
start_date_filter`. -/
def monthlyEligLive (pts : List (Int × ℚ)) (cutoff : Int) : List (Int × ℚ) :=
  (sortPts pts).filter (fun p => decide (cutoff ≤ dayOfMsUtc p.1))

/-- Models `all_symphs_monthly.py` line 79: the baseline is the value of the first
eligible (post-cutoff) live point — the FIRST_AFTER_CUTOFF rule. -/
def monthlyLiveBaseline (pts : List (Int × ℚ)) (cutoff : Int) : Option ℚ :=
  (monthlyEligLive pts cutoff).head?.map Prod.snd

/-- UTC dates inserted into `combined_performance` by the live pass — note
they are inserted (line 81-82) *before* the `live_baseline > 0` test, so a
non-positive baseline still contributes dates. -/
def monthlyLiveDays (pts : List (Int × ℚ)) (cutoff : Int) : List Int :=
  (monthlyEligLive pts cutoff).map (fun p => dayOfMsUtc p.1)

/-- The `"Live"` cell (lines 84-85): `value/baseline - 1` for the last
eligible point bucketed to the date, or `None` when the baseline is not
positive. -/
def monthlyLiveCell (pts : List (Int × ℚ)) (cutoff d : Int) : Option ℚ :=
  match monthlyLiveBaseline pts cutoff with
  | none => none
  | some b =>
    if 0 < b then
      (((monthlyEligLive pts cutoff).filter
          (fun p => dayOfMsUtc p.1 == d)).getLast?).map (fun p => p.2 / b - 1)
    else none

/-- Models `sorted(timeseries.keys(), key=int)` (`all_symphs_monthly.py` line 90):
day-offset keys sorted numerically. -/
def btKeysSortedM (ts : List (Nat × ℚ)) : List Nat :=
  (ts.map Prod.fst).insertionSort (· ≤ ·)

/-- Dictionary lookup `timeseries[day_key]`. -/
def btLookup (ts : List (Nat × ℚ)) (k : Nat) : Option ℚ :=
  (ts.find? (fun p => p.1 == k)).map Prod.snd

/-- Numerically sorted day-offset keys surviving the cutoff filter
(line 96). -/
def monthlyEligBtKeys (ts : List (Nat × ℚ)) (cutoff : Int) : List Nat :=
  (btKeysSortedM ts).filter (fun k => decide (cutoff ≤ (k : Int)))

/-- Line 97: the backtest baseline is the capital at the first eligible
day-offset key. -/
def monthlyBtBaseline (ts : List (Nat × ℚ)) (cutoff : Int) : Option ℚ :=
  (monthlyEligBtKeys ts cutoff).head?.bind (btLookup ts)

/-- Dates inserted by the backtest pass (lines 99-100), again inserted
before the `backtest_baseline > 0` test. -/
def monthlyBtDays (ts : List (Nat × ℚ)) (cutoff : Int) : List Int :=
  (monthlyEligBtKeys ts cutoff).map (fun (k : Nat) => (k : Int))

/-- The `"Backtest"` cell (lines 102-103). -/
def monthlyBtCell (ts : List (Nat × ℚ)) (cutoff d : Int) : Option ℚ :=
  match monthlyBtBaseline ts cutoff with
  | none => none
  | some b =>
    if 0 < b then
      (((monthlyEligBtKeys ts cutoff).filter (fun (k : Nat) => ((k : Int) == d))).getLast?).bind
        (fun k => (btLookup ts k).map (fun v => v / b - 1))
    else none

/-- Live dates of `all_symphs_monthly.py`, handling an absent payload. -/
def monthlyLiveDaysOpt (live : Option (List (Int × ℚ))) (cutoff : Int) : List Int :=
  match live with
  | none => []
  | some pts => monthlyLiveDays pts cutoff

/-- Live cell of `all_symphs_monthly.py`, handling an absent payload. -/
def monthlyLiveCellOpt (live : Option (List (Int × ℚ))) (cutoff d : Int) : Option ℚ :=
  match live with
  | none => none
  | some pts => monthlyLiveCell pts cutoff d

/-- Backtest dates of `all_symphs_monthly.py`, handling an absent payload or
an unmatched symphony id (line 88). -/
def monthlyBtDaysOpt (bt : Option (List (Nat × ℚ))) (cutoff : Int) : List Int :=
  match bt with
  | none => []
  | some ts => monthlyBtDays ts cutoff

/-- Backtest cell of `all_symphs_monthly.py`, handling an absent payload. -/
def monthlyBtCellOpt (bt : Option (List (Nat × ℚ))) (cutoff d : Int) : Option ℚ :=
  match bt with
  | none => none
  | some ts => monthlyBtCell ts cutoff d

/-- Union of eligible dates of the two sides, sorted ascending — the keys of
`combined_performance` as listed by `sorted(combined_performance.items())`
(line 107). -/
def monthlyAllDays (live : Option (List (Int × ℚ))) (bt : Option (List (Nat × ℚ)))
    (cutoff : Int) : List Int :=
  ((monthlyLiveDaysOpt live cutoff ++ monthlyBtDaysOpt bt cutoff).dedup).insertionSort (· ≤ ·)

/-- Rows of `process_and_merge_data` of `all_symphs_monthly.py`. -/
def monthlyRows (live : Option (List (Int × ℚ))) (bt : Option (List (Nat × ℚ)))
    (cutoff : Int) : List Row :=
  (monthlyAllDays live bt cutoff).map
    (fun d => ⟨d, monthlyLiveCellOpt live cutoff d, monthlyBtCellOpt bt cutoff d⟩)

/-! ## Helper lemmas -/

/-- Adjacent elements of a `(· ≤ ·)`-sorted rational list are ordered. -/
theorem sorted_getD_le (s : List ℚ) (hs : s.Sorted (· ≤ ·)) (h2 : 2 ≤ s.length) :
    s.getD (s.length - 2) 0 ≤ s.getD (s.length - 1) 0 := by
  have h1 : s.length - 2 < s.length := by omega
  have h0 : s.length - 1 < s.length := by omega
  rw [s.getD_eq_getElem 0 h1, s.getD_eq_getElem 0 h0]
  have := hs.rel_get_of_lt (a := ⟨s.length - 2, h1⟩) (b := ⟨s.length - 1, h0⟩)
    (by simp [Fin.lt_def]; omega)
  simpa [List.get_eq_getElem] using this

/-! ## C1, C10 — the live delta of `zscore.py` -/

/-- C1: the claim says the live delta fed to the scorer is the difference of
the last two valuation samples in chronological (timestamp-ascending) order.
The code instead sorts the bare values.  On the payload with
`epoch_ms = [1, 2, 3]` and `deposit_adjusted_series = [100, 105, 103]`
(already chronological), the code produces `105 - 103 = 2` while the last
two chronological samples give `103 - 105 = -2`. -/
theorem get_live_pnl_ignores_chronology :
    get_live_pnl (some [100, 105, 103]) = some 2 ∧
    specLiveDelta [(1, 100), (2, 105), (3, 103)] = some (-2) ∧
    get_live_pnl (some [100, 105, 103]) ≠ specLiveDelta [(1, 100), (2, 105), (3, 103)] := by
  refine ⟨by norm_num [get_live_pnl], by norm_num [specLiveDelta, sortPts, pairLe], ?_⟩
  norm_num [get_live_pnl, specLiveDelta, sortPts, pairLe]

/-- C10: for any live series of at least two samples, `get_live_pnl` returns
the difference between the largest and second-largest values of the sorted
series, which is never negative. -/
theorem get_live_pnl_nonneg (l : List ℚ) (h : 2 ≤ l.length) :
    ∃ d, get_live_pnl (some l) = some d ∧ 0 ≤ d ∧
      d = (l.insertionSort (· ≤ ·)).getD (l.length - 1) 0
        - (l.insertionSort (· ≤ ·)).getD (l.length - 2) 0 := by
  have hlen : (l.insertionSort (· ≤ ·)).length = l.length :=
    List.length_insertionSort _ _
  have hd : get_live_pnl (some l)
      = some ((l.insertionSort (· ≤ ·)).getD (l.length - 1) 0
        - (l.insertionSort (· ≤ ·)).getD (l.length - 2) 0) := by
    show (if 2 ≤ l.length then
      let s := l.insertionSort (· ≤ ·)
      some (s.getD (s.length - 1) 0 - s.getD (s.length - 2) 0)
     else none) = _
    rw [if_pos h]
    simp only [hlen]
  have hs : (l.insertionSort (· ≤ ·)).Sorted (· ≤ ·) :=
    List.sorted_insertionSort _ _
  have hle : (l.insertionSort (· ≤ ·)).getD (l.length - 2) 0
      ≤ (l.insertionSort (· ≤ ·)).getD (l.length - 1) 0 := by
    have := sorted_getD_le _ hs (by omega)
    rwa [hlen] at this
  exact ⟨_, hd, by linarith, rfl⟩

/-- Witness for C10 at a concrete input. -/
theorem get_live_pnl_nonneg_witness :
    ∃ d, get_live_pnl (some [3, 1, 2]) = some d ∧ 0 ≤ d ∧
      d = ([3, 1, 2].insertionSort (· ≤ ·)).getD (([3, 1, 2] : List ℚ).length - 1) 0
        - ([3, 1, 2].insertionSort (· ≤ ·)).getD (([3, 1, 2] : List ℚ).length - 2) 0 :=
  get_live_pnl_nonneg [3, 1, 2] (by norm_num)

/-! ## C2 — z-score formula -/

/-- C2: `calculate_z_score` returns `(live - mean) / std_dev` whenever the
standard deviation is non-zero, `0.0` when it is zero and the live delta
equals the mean, and positive infinity (the unbounded-deviation value) when
it is zero and the live delta differs from the mean. -/
theorem calculate_z_score_spec (live mean std : ℚ) :
    (std ≠ 0 → calculate_z_score live mean std = .val ((live - mean) / std)) ∧
    (std = 0 → live = mean → calculate_z_score live mean std = .val 0) ∧
    (std = 0 → live ≠ mean → calculate_z_score live mean std = .posInf) := by
  unfold calculate_z_score
  refine ⟨fun h => ?_, fun h he => ?_, fun h hne => ?_⟩ <;> simp_all

/-- Witness for C2: a non-zero standard deviation at concrete inputs. -/
theorem calculate_z_score_spec_witness :
    calculate_z_score 5 3 2 = ZScoreVal.val 1 := by
  have h := (calculate_z_score_spec 5 3 2).1 (by norm_num)
  rw [h]; norm_num

/-! ## C7 — timezone-dependent bucketing in `530symphs.py` -/

/-- C7: the claim says epoch-ms→date bucketing is computed in UTC and is
invariant to the machine's local timezone.  `all_symphs_monthly.py` indeed
buckets in UTC, but `530symphs.py` uses `datetime.fromtimestamp`, which is
local: timestamp `0` buckets to day `0` (1970-01-01) on a UTC machine and to
day `-1` (1969-12-31) on a machine one hour west of UTC. -/
theorem bucketing530_timezone_dependent :
    dayOfMs530 0 0 = 0 ∧ dayOfMs530 (-3600) 0 = -1 ∧
    dayOfMs530 (-3600) 0 ≠ dayOfMs530 0 0 ∧ dayOfMsUtc 0 = 0 := by
  decide

/-! ## C8 — day-offset to calendar date -/

/-- C8 counterexample: the claim (from the spec's example) says day-offset
20225 maps to 2025-05-30; it actually maps to 2025-05-17. -/
theorem dayOffset_20225_not_may30 :
    civilFromDays 20225 = (2025, 5, 17) ∧ civilFromDays 20225 ≠ (2025, 5, 30) := by
  decide

/-- C8 amended: offset `k` maps to 1970-01-01 plus `k` days — offset 0 is
1970-01-01, offset 20225 is 2025-05-17 (2025-05-30 is offset 20238) — and
the monthly extractor sorts the day-offset keys numerically. -/
theorem dayOffset_mapping :
    civilFromDays 0 = (1970, 1, 1) ∧
    civilFromDays 20225 = (2025, 5, 17) ∧
    civilFromDays 20238 = (2025, 5, 30) ∧
    (∀ ts : List (Nat × ℚ), (btKeysSortedM ts).Sorted (· ≤ ·)) :=
  ⟨by decide, by decide, by decide, fun ts => List.sorted_insertionSort _ _⟩

/-! ## C9 — the worked deviation example -/

/-- C9 counterexample: on backtest capital `[10000, 10100, 10050, 10200]`
the population variance of the P&L differences is `65000/9 ≈ 7222.2`, so the
population standard deviation exceeds `83.28` — it is not `≈ 83.27` as
claimed — and the z-score for live delta 500 satisfies `z² = 26`, so
`z < 5.15` — not `≈ 5.20` as claimed. -/
theorem deviation_example_spec_numbers_wrong :
    popVar (pnlDiffs [10000, 10100, 10050, 10200]) = 65000 / 9 ∧
    ((8328 : ℚ) / 100) ^ 2 < popVar (pnlDiffs [10000, 10100, 10050, 10200]) ∧
    (500 - listMean (pnlDiffs [10000, 10100, 10050, 10200])) ^ 2
      = 26 * popVar (pnlDiffs [10000, 10100, 10050, 10200]) ∧
    (26 : ℚ) < ((515 : ℚ) / 100) ^ 2 := by
  norm_num [pnlDiffs, popVar, listMean]

/-- C9 amended: capital `[10000, 10100, 10050, 10200]` gives P&L differences
`[100, -50, 150]`, mean `200/3 ≈ 66.67`, population variance `65000/9`
(hence population standard deviation between 84.98 and 84.99, not 83.27),
and live delta 500 gives `z² = 26`, i.e. `z = √26` between 5.09 and 5.10
(not 5.20); the deviation ranking lists strategies in descending order of
absolute z-score, so this strategy is ranked ahead of any peer with smaller
absolute z-score. -/
theorem deviation_example_actual :
    pnlDiffs [10000, 10100, 10050, 10200] = [100, -50, 150] ∧
    listMean (pnlDiffs [10000, 10100, 10050, 10200]) = 200 / 3 ∧
    popVar (pnlDiffs [10000, 10100, 10050, 10200]) = 65000 / 9 ∧
    ((8498 : ℚ) / 100) ^ 2 < popVar (pnlDiffs [10000, 10100, 10050, 10200]) ∧
    popVar (pnlDiffs [10000, 10100, 10050, 10200]) < ((8499 : ℚ) / 100) ^ 2 ∧
    (500 - listMean (pnlDiffs [10000, 10100, 10050, 10200])) ^ 2
      = 26 * popVar (pnlDiffs [10000, 10100, 10050, 10200]) ∧
    ((509 : ℚ) / 100) ^ 2 < 26 ∧ (26 : ℚ) < ((510 : ℚ) / 100) ^ 2 ∧
    (∀ zs : List ℚ, (rankZ zs).Pairwise (fun a b => |b| ≤ |a|)) := by
  refine ⟨by norm_num [pnlDiffs], by norm_num [pnlDiffs, listMean],
    by norm_num [pnlDiffs, popVar, listMean],
    by norm_num [pnlDiffs, popVar, listMean],
    by norm_num [pnlDiffs, popVar, listMean],
    by norm_num [pnlDiffs, popVar, listMean],
    by norm_num, by norm_num, fun zs => ?_⟩
  exact List.sorted_insertionSort rankRel zs

/-! ## C3, C5, C6 — concrete counterexamples -/

/-- C3 counterexample: the claim says the monthly reconciler emits exactly
the rows for dates present in **both** series and drops dates present in
only one.  With live samples on days 0 and 1 and a backtest sample on day 0
only, day 1 is present in just the live series, yet a row for it is emitted
(with the backtest cell blank): the merge is a union with blanks, not an
intersection. -/
theorem monthly_merge_emits_one_sided_dates :
    monthlyRows (some [(0, 100), (86400000, 110)]) (some [(0, 10000)]) 0 =
      [⟨0, some 0, some 0⟩, ⟨1, some (1 / 10), none⟩] ∧
    (1 : Int) ∈ (monthlyRows (some [(0, 100), (86400000, 110)])
        (some [(0, 10000)]) 0).map Row.date ∧
    (1 : Int) ∉ monthlyBtDays [(0, 10000)] 0 := by
  refine ⟨?_, ?_, ?_⟩ <;>
    norm_num [monthlyRows, monthlyAllDays, monthlyLiveDaysOpt, monthlyBtDaysOpt,
      monthlyLiveCellOpt, monthlyBtCellOpt, monthlyLiveDays, monthlyLiveCell,
      monthlyLiveBaseline, monthlyEligLive, monthlyBtDays, monthlyBtCell,
      monthlyBtBaseline, monthlyEligBtKeys, btKeysSortedM, btLookup, sortPts,
      pairLe, dayOfMsUtc, Int.fdiv]

/-- C5 counterexample: the claim says a non-positive baseline makes the side
contribute **no dates** downstream.  In `all_symphs_monthly.py` the dates of
a degenerate-baseline live series are still inserted into
`combined_performance` (the insertion happens before the baseline sign
test), so rows for those dates are emitted with both cells blank. -/
theorem monthly_degenerate_baseline_contributes_dates :
    monthlyLiveBaseline [(0, -5), (86400000, -4)] 0 = some (-5) ∧
    monthlyRows (some [(0, -5), (86400000, -4)]) none 0 =
      [⟨0, none, none⟩, ⟨1, none, none⟩] ∧
    monthlyRows (some [(0, -5), (86400000, -4)]) none 0 ≠ [] := by
  refine ⟨?_, ?_, ?_⟩ <;>
    norm_num [monthlyRows, monthlyAllDays, monthlyLiveDaysOpt, monthlyBtDaysOpt,
      monthlyLiveCellOpt, monthlyBtCellOpt, monthlyLiveDays, monthlyLiveCell,
      monthlyLiveBaseline, monthlyEligLive, sortPts, pairLe, dayOfMsUtc, Int.fdiv]
  exact List.cons_ne_nil _ _

/-- C6 counterexample: the claim says the entry at the baseline's own date,
if included, is exactly 0.0.  With two samples on the same (bucketed) date —
timestamps 0 and 1000 (one second apart), values 100 then 110 — the earliest
sample 100 is the baseline, but the dictionary entry for its date is
overwritten by the later sample: `110/100 - 1 = 1/10 ≠ 0`. -/
theorem baseline_date_entry_not_zero :
    liveBaseline530 [(0, 100), (1000, 110)] = some 100 ∧
    dayOfMs530 0 0 = 0 ∧ dayOfMs530 0 1000 = 0 ∧
    livePct530 0 [(0, 100), (1000, 110)] 0 = some (1 / 10) ∧
    ((1 : ℚ) / 10) ≠ 0 := by
  refine ⟨?_, by decide, by decide, ?_, by norm_num⟩ <;>
    norm_num [livePct530, liveBaseline530, sortPts, pairLe, dayOfMs530, Int.fdiv]

/-! ## Sorted-union helper lemmas -/

theorem sortedDedup_sorted (l : List Int) :
    ((l.dedup).insertionSort (· ≤ ·)).Sorted (· < ·) := by
  have hs : ((l.dedup).insertionSort (· ≤ ·)).Sorted (· ≤ ·) :=
    List.sorted_insertionSort _ _
  have hn : ((l.dedup).insertionSort (· ≤ ·)).Nodup :=
    (List.perm_insertionSort _ _).nodup_iff.mpr l.nodup_dedup
  exact hs.lt_of_le hn

theorem mem_sortedDedup (l : List Int) (d : Int) :
    d ∈ (l.dedup).insertionSort (· ≤ ·) ↔ d ∈ l := by
  rw [List.mem_insertionSort, List.mem_dedup]

/-! ## Structure of the monthly rows -/

theorem monthlyRows_map_date (live : Option (List (Int × ℚ)))
    (bt : Option (List (Nat × ℚ))) (cutoff : Int) :
    (monthlyRows live bt cutoff).map Row.date = monthlyAllDays live bt cutoff := by
  rw [monthlyRows, List.map_map]
  exact List.map_id _

theorem monthlyRows_date_mem (live : Option (List (Int × ℚ)))
    (bt : Option (List (Nat × ℚ))) (cutoff d : Int) :
    d ∈ (monthlyRows live bt cutoff).map Row.date ↔
      d ∈ monthlyLiveDaysOpt live cutoff ∨ d ∈ monthlyBtDaysOpt bt cutoff := by
  rw [monthlyRows_map_date, monthlyAllDays, mem_sortedDedup, List.mem_append]

theorem monthlyRows_cells (live : Option (List (Int × ℚ)))
    (bt : Option (List (Nat × ℚ))) (cutoff : Int) :
    ∀ r ∈ monthlyRows live bt cutoff,
      r.live = monthlyLiveCellOpt live cutoff r.date ∧
      r.backtest = monthlyBtCellOpt bt cutoff r.date := by
  intro r hr
  rw [monthlyRows, List.mem_map] at hr
  obtain ⟨d, _, rfl⟩ := hr
  exact ⟨rfl, rfl⟩

theorem monthlyLiveDays_mem (pts : List (Int × ℚ)) (cutoff d : Int) :
    d ∈ monthlyLiveDays pts cutoff ↔
      (cutoff ≤ d ∧ ∃ p ∈ pts, dayOfMsUtc p.1 = d) := by
  simp only [monthlyLiveDays, monthlyEligLive, List.mem_map, List.mem_filter,
    sortPts, List.mem_insertionSort, decide_eq_true_eq]
  constructor
  · rintro ⟨p, ⟨hp, hc⟩, hd⟩
    exact ⟨hd ▸ hc, p, hp, hd⟩
  · rintro ⟨hc, p, hp, hd⟩
    exact ⟨p, ⟨hp, hd ▸ hc⟩, hd⟩

theorem monthlyBtDays_mem (ts : List (Nat × ℚ)) (cutoff d : Int) :
    d ∈ monthlyBtDays ts cutoff ↔
      (cutoff ≤ d ∧ ∃ p ∈ ts, ((p.1 : Int) = d)) := by
  unfold monthlyBtDays monthlyEligBtKeys btKeysSortedM
  constructor
  · intro hd
    simp only [List.mem_map, List.mem_filter, List.mem_insertionSort,
      decide_eq_true_eq] at hd
    obtain ⟨k, ⟨⟨p, hp, rfl⟩, hc⟩, rfl⟩ := hd
    exact ⟨hc, p, hp, rfl⟩
  · rintro ⟨hc, p, hp, hd⟩
    simp only [List.mem_map, List.mem_filter, List.mem_insertionSort,
      decide_eq_true_eq]
    exact ⟨p.1, ⟨⟨p, hp, rfl⟩, hd ▸ hc⟩, hd⟩

/-- C3 amended: for every pair of payloads and cutoff, the monthly
reconciler emits exactly one row per date at/after the cutoff present in
**either** series (the dates are strictly ascending, hence distinct); each
side's cell on a row is that side's own cell value (no carry-forward), and a
date present in only one series is not dropped — its row simply carries
`none` for the missing side. -/
theorem monthly_merge_is_union_with_blanks (live : Option (List (Int × ℚ)))
    (bt : Option (List (Nat × ℚ))) (cutoff : Int) :
    ((monthlyRows live bt cutoff).map Row.date).Sorted (· < ·) ∧
    (∀ d : Int, d ∈ (monthlyRows live bt cutoff).map Row.date ↔
      (d ∈ monthlyLiveDaysOpt live cutoff ∨ d ∈ monthlyBtDaysOpt bt cutoff)) ∧
    (∀ pts, live = some pts → ∀ d : Int,
      d ∈ monthlyLiveDaysOpt live cutoff ↔
        (cutoff ≤ d ∧ ∃ p ∈ pts, dayOfMsUtc p.1 = d)) ∧
    (∀ ts, bt = some ts → ∀ d : Int,
      d ∈ monthlyBtDaysOpt bt cutoff ↔
        (cutoff ≤ d ∧ ∃ p ∈ ts, ((p.1 : Int) = d))) ∧
    (∀ r ∈ monthlyRows live bt cutoff,
      r.live = monthlyLiveCellOpt live cutoff r.date ∧
      r.backtest = monthlyBtCellOpt bt cutoff r.date) := by
  refine ⟨?_, ?_, ?_, ?_, monthlyRows_cells live bt cutoff⟩
  · rw [monthlyRows_map_date]
    exact sortedDedup_sorted _
  · exact fun d => monthlyRows_date_mem live bt cutoff d
  · rintro pts rfl d
    exact monthlyLiveDays_mem pts cutoff d
  · rintro ts rfl d
    exact monthlyBtDays_mem ts cutoff d

/-- Witness for C3 amended at a concrete one-sided input. -/
theorem monthly_merge_is_union_with_blanks_witness :
    (1 : Int) ∈ (monthlyRows (some [(86400000, 110)]) none 0).map Row.date := by
  have h := (monthly_merge_is_union_with_blanks (some [(86400000, 110)]) none 0).2.1 1
  refine h.mpr (Or.inl ?_)
  norm_num [monthlyLiveDaysOpt, monthlyLiveDays, monthlyEligLive, sortPts,
    dayOfMsUtc, Int.fdiv]

/-! ## Degenerate baselines -/

theorem livePct530_degenerate (tzSec : Int) (pts : List (Int × ℚ))
    (h : ∀ b, liveBaseline530 pts = some b → b ≤ 0) :
    livePct530 tzSec pts = fun _ => none := by
  funext d
  unfold livePct530
  cases hb : liveBaseline530 pts with
  | none => rfl
  | some b =>
    exact if_neg (not_lt.mpr (h b hb))

theorem liveDays530_degenerate (tzSec : Int) (pts : List (Int × ℚ))
    (h : ∀ b, liveBaseline530 pts = some b → b ≤ 0) :
    liveDays530 tzSec pts = [] := by
  unfold liveDays530
  cases hb : liveBaseline530 pts with
  | none => rfl
  | some b =>
    exact if_neg (not_lt.mpr (h b hb))

theorem monthlyLiveCell_degenerate (pts : List (Int × ℚ)) (cutoff : Int)
    (h : ∀ b, monthlyLiveBaseline pts cutoff = some b → b ≤ 0) :
    ∀ d, monthlyLiveCell pts cutoff d = none := by
  intro d
  unfold monthlyLiveCell
  cases hb : monthlyLiveBaseline pts cutoff with
  | none => rfl
  | some b =>
    exact if_neg (not_lt.mpr (h b hb))

/-- C5 amended: a non-positive (or undefined) baseline produces no
normalized values.  In `530symphs.py` the live side then contributes nothing
at all — the merged output is the same as if the live payload were absent —
while in `all_symphs_monthly.py` every live cell is blank but the live
side's eligible dates still appear among the emitted rows.  The backtest
side is processed the same way in both cases. -/
theorem degenerate_baseline_behavior (tzSec cutoff : Int)
    (pts pts2 : List (Int × ℚ)) (bt bt2 : Option (List (Nat × ℚ)))
    (h530 : ∀ b, liveBaseline530 pts = some b → b ≤ 0)
    (hmon : ∀ b, monthlyLiveBaseline pts2 cutoff = some b → b ≤ 0) :
    process530 tzSec cutoff (some pts) bt = process530 tzSec cutoff none bt ∧
    (∀ r ∈ monthlyRows (some pts2) bt2 cutoff, r.live = none) ∧
    (∀ d ∈ monthlyLiveDays pts2 cutoff,
      d ∈ (monthlyRows (some pts2) bt2 cutoff).map Row.date) := by
  refine ⟨?_, ?_, ?_⟩
  · have h1 : liveDaysOpt530 tzSec (some pts) = liveDaysOpt530 tzSec none :=
      liveDays530_degenerate tzSec pts h530
    have h2 : livePctOpt530 tzSec (some pts) = livePctOpt530 tzSec none :=
      livePct530_degenerate tzSec pts h530
    rw [process530, process530, h1, h2]
  · intro r hr
    rw [(monthlyRows_cells _ _ _ r hr).1]
    exact monthlyLiveCell_degenerate pts2 cutoff hmon r.date
  · intro d hd
    rw [monthlyRows_date_mem]
    exact Or.inl hd

/-- Witness for C5 amended at a concrete degenerate input. -/
theorem degenerate_baseline_behavior_witness :
    process530 0 0 (some [(0, -5)]) none = process530 0 0 none none :=
  (degenerate_baseline_behavior 0 0 [(0, -5)] [(0, -5)] none none
    (by
      intro b hb
      rw [show liveBaseline530 [(0, -5)] = some (-5) by
        norm_num [liveBaseline530, sortPts]] at hb
      cases hb
      norm_num)
    (by
      intro b hb
      rw [show monthlyLiveBaseline [(0, -5)] 0 = some (-5) by
        norm_num [monthlyLiveBaseline, monthlyEligLive, sortPts, dayOfMsUtc,
          Int.fdiv]] at hb
      cases hb
      norm_num)).1

/-- C6 amended: under FIRST_SAMPLE normalization (the live side of
`530symphs.py`) the baseline is the value of an earliest-timestamped sample
of the unfiltered input; every emitted entry equals `raw/baseline - 1` for a
sample bucketed to that date; and the entry at the baseline's own date is
exactly `0` provided the baseline's sample is the only sample bucketed to
its date (with same-date duplicates the later sample overwrites it). -/
theorem first_sample_normalization (tzSec : Int) (pts : List (Int × ℚ))
    (hne : pts ≠ []) :
    (∃ b, liveBaseline530 pts = some b ∧
      ∃ p ∈ pts, p.2 = b ∧ ∀ q ∈ pts, p.1 ≤ q.1) ∧
    (∀ b, liveBaseline530 pts = some b → 0 < b →
      ∀ d v, livePct530 tzSec pts d = some v →
        ∃ p ∈ pts, dayOfMs530 tzSec p.1 = d ∧ v = p.2 / b - 1) ∧
    (∀ b, liveBaseline530 pts = some b → 0 < b →
      (∀ q ∈ sortPts pts,
        dayOfMs530 tzSec q.1 = dayOfMs530 tzSec ((sortPts pts).headI).1 →
        q = (sortPts pts).headI) →
      livePct530 tzSec pts (dayOfMs530 tzSec ((sortPts pts).headI).1) = some 0) := by
  have hsne : sortPts pts ≠ [] := by
    intro hnil
    have hperm := List.perm_insertionSort pairLe pts
    rw [show pts.insertionSort pairLe = sortPts pts from rfl, hnil] at hperm
    exact hne hperm.symm.eq_nil
  obtain ⟨a, t, hst⟩ := List.exists_cons_of_ne_nil hsne
  have hsorted : (sortPts pts).Sorted pairLe := List.sorted_insertionSort pairLe pts
  have hmem : ∀ q : Int × ℚ, q ∈ sortPts pts ↔ q ∈ pts :=
    fun q => List.mem_insertionSort pairLe
  have hha : (sortPts pts).headI = a := by rw [hst]; rfl
  refine ⟨?_, ?_, ?_⟩
  · refine ⟨a.2, ?_, a, (hmem a).mp (hst ▸ List.mem_cons_self a t), rfl, ?_⟩
    · unfold liveBaseline530
      rw [hst]
      rfl
    · intro q hq
      have hq' : q ∈ sortPts pts := (hmem q).mpr hq
      rw [hst] at hq'
      rcases List.mem_cons.mp hq' with rfl | hq''
      · exact le_refl _
      · have hp : pairLe a q := by
          rw [hst] at hsorted
          exact List.rel_of_sorted_cons hsorted q hq''
        rcases hp with h | ⟨h, _⟩
        · exact le_of_lt h
        · exact le_of_eq h
  · intro b hb hpos d v hv
    unfold livePct530 at hv
    simp only [hb] at hv
    rw [if_pos hpos] at hv
    obtain ⟨p, hp, hv2⟩ := Option.map_eq_some'.mp hv
    have hpf := List.mem_of_mem_getLast? hp
    rw [List.mem_filter] at hpf
    exact ⟨p, (hmem p).mp hpf.1, eq_of_beq hpf.2, hv2.symm⟩
  · intro b hb hpos huniq
    have hba : b = a.2 := by
      unfold liveBaseline530 at hb
      rw [hst] at hb
      simpa using hb.symm
    rw [hha]
    unfold livePct530
    simp only [hb]
    rw [if_pos hpos]
    have hane : a ∈ (sortPts pts).filter
        (fun p => dayOfMs530 tzSec p.1 == dayOfMs530 tzSec a.1) := by
      rw [List.mem_filter]
      exact ⟨hst ▸ List.mem_cons_self a t, by simp⟩
    obtain ⟨x, hx⟩ := Option.isSome_iff_exists.mp
      (List.getLast?_isSome.mpr (List.ne_nil_of_mem hane))
    have hxf := List.mem_of_mem_getLast? hx
    rw [List.mem_filter] at hxf
    have hxa : x = a := by
      have := huniq x hxf.1 (by rw [hha]; exact eq_of_beq hxf.2)
      rw [hha] at this
      exact this
    rw [hx, hxa]
    have hz : a.2 / b - 1 = 0 := by
      rw [hba]
      have : a.2 ≠ 0 := ne_of_gt (hba ▸ hpos)
      field_simp
    rw [Option.map_some', hz]

/-- Witness for C6 amended: two samples on distinct days, baseline `100`. -/
theorem first_sample_normalization_witness :
    livePct530 0 [(0, 100), (86400000, 110)]
      (dayOfMs530 0 ((sortPts [(0, 100), (86400000, 110)]).headI).1) = some 0 := by
  refine (first_sample_normalization 0 [(0, 100), (86400000, 110)]
    (List.cons_ne_nil _ _)).2.2 100 ?_ (by norm_num) ?_
  · norm_num [liveBaseline530, sortPts, pairLe]
  · intro q hq hd
    norm_num [sortPts, pairLe] at hq ⊢
    rcases hq with rfl | rfl
    · rfl
    · norm_num [sortPts, pairLe, dayOfMs530, Int.fdiv] at hd

/-! ## The forward-fill scan of `530symphs.py` -/

theorem getLast?_eq_of_sorted_max (l : List Int) (hs : l.Sorted (· ≤ ·))
    (x : Int) (hx : x ∈ l) (hmax : ∀ y ∈ l, y ≤ x) : l.getLast? = some x := by
  induction l with
  | nil => cases hx
  | cons a t ih =>
    cases t with
    | nil =>
      rw [List.mem_singleton.mp hx]
      rfl
    | cons b t2 =>
      rw [List.getLast?_cons_cons]
      have hab : a ≤ b := List.rel_of_sorted_cons hs b (List.mem_cons_self b t2)
      rcases List.mem_cons.mp hx with rfl | hx2
      · have hbx : b = x := le_antisymm
          (hmax b (List.mem_cons_of_mem _ (List.mem_cons_self b t2))) hab
        exact ih hs.of_cons (hbx ▸ List.mem_cons_self b t2)
          (fun y hy => hmax y (List.mem_cons_of_mem _ hy))
      · exact ih hs.of_cons hx2 (fun y hy => hmax y (List.mem_cons_of_mem _ hy))

/-- When `d` itself is an eligible key, the most recent value at or before
`d` is the value at `d`. -/
theorem specLastAt_self (keys : List Int) (get : Int → Option ℚ) (cutoff d : Int)
    (hd : d ∈ keys) (hcd : cutoff ≤ d) :
    specLastAt keys get cutoff d = get d := by
  unfold specLastAt
  have hsf : ((keys.insertionSort (· ≤ ·)).filter
      (fun k => decide (cutoff ≤ k) && decide (k ≤ d))).Sorted (· ≤ ·) :=
    (List.sorted_insertionSort _ _).filter _
  have hdf : d ∈ (keys.insertionSort (· ≤ ·)).filter
      (fun k => decide (cutoff ≤ k) && decide (k ≤ d)) :=
    List.mem_filter.mpr ⟨(List.mem_insertionSort _).mpr hd, by simp [hcd]⟩
  have hmax : ∀ y ∈ (keys.insertionSort (· ≤ ·)).filter
      (fun k => decide (cutoff ≤ k) && decide (k ≤ d)), y ≤ d := by
    intro y hy
    have := (List.mem_filter.mp hy).2
    simp only [Bool.and_eq_true, decide_eq_true_eq] at this
    exact this.2
  rw [getLast?_eq_of_sorted_max _ hsf d hdf hmax]
  rfl

/-- When no eligible key lies in `(c, d]`, the most recent value at or
before `d` equals the one at or before `c`. -/
theorem specLastAt_congr (keys : List Int) (get : Int → Option ℚ)
    (cutoff c d : Int) (hcd : c ≤ d)
    (hno : ∀ k ∈ keys, cutoff ≤ k → k ≤ d → k ≤ c) :
    specLastAt keys get cutoff d = specLastAt keys get cutoff c := by
  unfold specLastAt
  rw [List.filter_congr (fun k hk => ?_)]
  have hk' : k ∈ keys := (List.mem_insertionSort _).mp hk
  by_cases h1 : cutoff ≤ k
  · by_cases h2 : k ≤ d
    · have h3 : k ≤ c := hno k hk' h1 h2
      simp [h1, h2, h3]
    · have h3 : ¬k ≤ c := fun hc2 => h2 (hc2.trans hcd)
      simp [h2, h3]
  · simp [h1]

/-- Before the scan window opens there is no value yet. -/
theorem specLastAt_none_short (keys : List Int) (get : Int → Option ℚ)
    (cutoff c : Int) (h : c < cutoff) :
    specLastAt keys get cutoff c = none := by
  unfold specLastAt
  rw [List.filter_eq_nil_iff.mpr (fun k _ => ?_)]
  · rfl
  · simp only [Bool.and_eq_true, decide_eq_true_eq, not_and]
    intro h1 h2
    omega

/-- With a coherent dictionary (a value exactly at the keys), the most
recent value at or before `d` is absent exactly when no key lies in
`[cutoff, d]`. -/
theorem specLastAt_eq_none_iff (keys : List Int) (get : Int → Option ℚ)
    (cutoff d : Int) (hco : ∀ k, (get k).isSome ↔ k ∈ keys) :
    specLastAt keys get cutoff d = none ↔
      ∀ k ∈ keys, ¬(cutoff ≤ k ∧ k ≤ d) := by
  unfold specLastAt
  constructor
  · intro hnone k hk hkd
    have hkf : k ∈ (keys.insertionSort (· ≤ ·)).filter
        (fun k => decide (cutoff ≤ k) && decide (k ≤ d)) :=
      List.mem_filter.mpr ⟨(List.mem_insertionSort _).mpr hk, by simp [hkd.1, hkd.2]⟩
    obtain ⟨x, hx⟩ := Option.isSome_iff_exists.mp
      (List.getLast?_isSome.mpr (List.ne_nil_of_mem hkf))
    rw [hx] at hnone
    have hxk : x ∈ keys :=
      (List.mem_insertionSort _).mp (List.mem_filter.mp (List.mem_of_mem_getLast? hx)).1
    have hxs := (hco x).mpr hxk
    have hgx : get x = none := hnone
    rw [hgx] at hxs
    cases hxs
  · intro hall
    rw [List.filter_eq_nil_iff.mpr (fun k hk => ?_)]
    · rfl
    · simp only [Bool.and_eq_true, decide_eq_true_eq, not_and]
      intro h1 h2
      exact hall k ((List.mem_insertionSort _).mp hk) ⟨h1, h2⟩

theorem mergeLoop_map_date (lG bG : Int → Option ℚ) (cutoff : Int) :
    ∀ (ds : List Int) (lastL lastB : Option ℚ),
      (mergeLoop lG bG cutoff ds lastL lastB).map Row.date
        = ds.filter (fun d => decide (cutoff ≤ d)) := by
  intro ds
  induction ds with
  | nil => intro _ _; rfl
  | cons d ds ih =>
    intro lastL lastB
    by_cases h : cutoff ≤ d
    · simp only [mergeLoop, if_pos h, List.map_cons, ih]
      rw [List.filter_cons_of_pos (by simpa using h)]
    · simp only [mergeLoop, if_neg h, ih]
      rw [List.filter_cons_of_neg (by simpa using h)]

/-- The heart of C4: along the scan, each tracker always holds the side's
most recent dictionary value inside the scan window. -/
theorem mergeLoop_cells (lG bG : Int → Option ℚ) (lK bK : List Int)
    (cutoff : Int)
    (hLco : ∀ k, (lG k).isSome ↔ k ∈ lK)
    (hBco : ∀ k, (bG k).isSome ↔ k ∈ bK) :
    ∀ (ds : List Int) (c : Int) (lastL lastB : Option ℚ),
      ds.Sorted (· < ·) →
      (∀ d ∈ ds, c < d) →
      (∀ k ∈ lK, cutoff ≤ k → k ≤ c ∨ k ∈ ds) →
      (∀ k ∈ bK, cutoff ≤ k → k ≤ c ∨ k ∈ ds) →
      lastL = specLastAt lK lG cutoff c →
      lastB = specLastAt bK bG cutoff c →
      ∀ r ∈ mergeLoop lG bG cutoff ds lastL lastB,
        r.live = specLastAt lK lG cutoff r.date ∧
        r.backtest = specLastAt bK bG cutoff r.date := by
  intro ds
  induction ds with
  | nil =>
    intro c lastL lastB _ _ _ _ _ _ r hr
    cases hr
  | cons d ds ih =>
    intro c lastL lastB hsort hgt hlk hbk hL hB r hr
    have hsort' : ds.Sorted (· < ·) := hsort.of_cons
    have hdlt : ∀ x ∈ ds, d < x := List.rel_of_sorted_cons hsort
    have hcd : c < d := hgt d (List.mem_cons_self d ds)
    by_cases hc : cutoff ≤ d
    · have hLnew : (lG d).orElse (fun _ => lastL) = specLastAt lK lG cutoff d := by
        by_cases hdK : d ∈ lK
        · obtain ⟨v, hv⟩ := Option.isSome_iff_exists.mp ((hLco d).mpr hdK)
          rw [hv, specLastAt_self lK lG cutoff d hdK hc, hv]
          rfl
        · have hnone : lG d = none := by
            cases hlg : lG d with
            | none => rfl
            | some v => exact absurd ((hLco d).mp (by rw [hlg]; rfl)) hdK
          rw [hnone, show (Option.none.orElse fun _ => lastL) = lastL from rfl, hL]
          symm
          refine specLastAt_congr lK lG cutoff c d (le_of_lt hcd) ?_
          intro k hk hck hkd
          rcases hlk k hk hck with h | h
          · exact h
          · rcases List.mem_cons.mp h with rfl | h2
            · exact absurd hk hdK
            · exact absurd hkd (not_le.mpr (hdlt k h2))
      have hBnew : (bG d).orElse (fun _ => lastB) = specLastAt bK bG cutoff d := by
        by_cases hdK : d ∈ bK
        · obtain ⟨v, hv⟩ := Option.isSome_iff_exists.mp ((hBco d).mpr hdK)
          rw [hv, specLastAt_self bK bG cutoff d hdK hc, hv]
          rfl
        · have hnone : bG d = none := by
            cases hbg : bG d with
            | none => rfl
            | some v => exact absurd ((hBco d).mp (by rw [hbg]; rfl)) hdK
          rw [hnone, show (Option.none.orElse fun _ => lastB) = lastB from rfl, hB]
          symm
          refine specLastAt_congr bK bG cutoff c d (le_of_lt hcd) ?_
          intro k hk hck hkd
          rcases hbk k hk hck with h | h
          · exact h
          · rcases List.mem_cons.mp h with rfl | h2
            · exact absurd hk hdK
            · exact absurd hkd (not_le.mpr (hdlt k h2))
      simp only [mergeLoop, if_pos hc] at hr
      rcases List.mem_cons.mp hr with rfl | hr2
      · exact ⟨hLnew, hBnew⟩
      · refine ih d _ _ hsort' hdlt ?_ ?_ hLnew hBnew r hr2
        · intro k hk hck
          rcases hlk k hk hck with h | h
          · exact Or.inl (h.trans (le_of_lt hcd))
          · rcases List.mem_cons.mp h with rfl | h2
            · exact Or.inl (le_refl k)
            · exact Or.inr h2
        · intro k hk hck
          rcases hbk k hk hck with h | h
          · exact Or.inl (h.trans (le_of_lt hcd))
          · rcases List.mem_cons.mp h with rfl | h2
            · exact Or.inl (le_refl k)
            · exact Or.inr h2
    · simp only [mergeLoop, if_neg hc] at hr
      refine ih c lastL lastB hsort'
        (fun x hx => hgt x (List.mem_cons_of_mem _ hx)) ?_ ?_ hL hB r hr
      · intro k hk hck
        rcases hlk k hk hck with h | h
        · exact Or.inl h
        · rcases List.mem_cons.mp h with rfl | h2
          · exact absurd hck hc
          · exact Or.inr h2
      · intro k hk hck
        rcases hbk k hk hck with h | h
        · exact Or.inl h
        · rcases List.mem_cons.mp h with rfl | h2
          · exact absurd hck hc
          · exact Or.inr h2

/-- The live dictionary has a value exactly at its keys. -/
theorem livePct530_isSome_iff (tzSec : Int) (pts : List (Int × ℚ)) (d : Int) :
    (livePct530 tzSec pts d).isSome ↔ d ∈ liveDays530 tzSec pts := by
  cases hb : liveBaseline530 pts with
  | none => simp [livePct530, liveDays530, hb]
  | some b =>
    by_cases hpos : 0 < b
    · simp only [livePct530, liveDays530, hb, hpos, if_true, Option.isSome_map']
      constructor
      · intro hs
        have hne2 : (sortPts pts).filter
            (fun p => dayOfMs530 tzSec p.1 == d) ≠ [] := by
          intro h0
          rw [h0] at hs
          cases hs
        obtain ⟨p, hp⟩ := List.exists_mem_of_ne_nil _ hne2
        rw [List.mem_filter] at hp
        exact List.mem_map.mpr ⟨p, hp.1, eq_of_beq hp.2⟩
      · intro hd2
        obtain ⟨p, hp, hpd⟩ := List.mem_map.mp hd2
        have hpf : p ∈ (sortPts pts).filter
            (fun p => dayOfMs530 tzSec p.1 == d) :=
          List.mem_filter.mpr ⟨hp, by rw [hpd]; exact beq_self_eq_true d⟩
        exact List.getLast?_isSome.mpr (List.ne_nil_of_mem hpf)
    · simp only [livePct530, liveDays530, hb, hpos, if_false]
      simp

/-- The backtest dictionary has a value exactly at its keys. -/
theorem btPct530_isSome_iff (ts : List (Nat × ℚ)) (d : Int) :
    (btPct530 ts d).isSome ↔ d ∈ btKeys530 ts := by
  unfold btPct530 btKeys530
  rw [Option.isSome_map']
  constructor
  · intro hs
    have hne2 : ts.filter (fun p => (p.1 : Int) == d) ≠ [] := by
      intro h0
      rw [h0] at hs
      cases hs
    obtain ⟨p, hp⟩ := List.exists_mem_of_ne_nil _ hne2
    rw [List.mem_filter] at hp
    exact List.mem_map.mpr ⟨p, hp.1, eq_of_beq hp.2⟩
  · intro hd2
    obtain ⟨p, hp, hpd⟩ := List.mem_map.mp hd2
    have hpf : p ∈ ts.filter (fun p => (p.1 : Int) == d) :=
      List.mem_filter.mpr ⟨hp, by rw [hpd]; exact beq_self_eq_true d⟩
    exact List.getLast?_isSome.mpr (List.ne_nil_of_mem hpf)

theorem livePctOpt530_isSome_iff (tzSec : Int) (live : Option (List (Int × ℚ)))
    (d : Int) :
    (livePctOpt530 tzSec live d).isSome ↔ d ∈ liveDaysOpt530 tzSec live := by
  cases live with
  | none => simp [livePctOpt530, liveDaysOpt530]
  | some pts => exact livePct530_isSome_iff tzSec pts d

theorem btPctOpt530_isSome_iff (bt : Option (List (Nat × ℚ))) (d : Int) :
    (btPctOpt530 bt d).isSome ↔ d ∈ btKeysOpt530 bt := by
  cases bt with
  | none => simp [btPctOpt530, btKeysOpt530]
  | some ts => exact btPct530_isSome_iff ts d

theorem allDates_sorted (lK bK : List Int) : (allDates lK bK).Sorted (· < ·) :=
  sortedDedup_sorted _

theorem allDates_mem (lK bK : List Int) (d : Int) :
    d ∈ allDates lK bK ↔ d ∈ lK ∨ d ∈ bK := by
  rw [allDates, mem_sortedDedup, List.mem_append]

/-- Cell correctness of the whole merge, from the scan invariant. -/
theorem merge530_cells (lK bK : List Int) (lG bG : Int → Option ℚ)
    (cutoff : Int)
    (hLco : ∀ k, (lG k).isSome ↔ k ∈ lK)
    (hBco : ∀ k, (bG k).isSome ↔ k ∈ bK) :
    ∀ r ∈ merge530 lK bK lG bG cutoff,
      r.live = specLastAt lK lG cutoff r.date ∧
      r.backtest = specLastAt bK bG cutoff r.date := by
  intro r hr
  rw [merge530] at hr
  cases hd : allDates lK bK with
  | nil =>
    rw [hd] at hr
    cases hr
  | cons d0 tail =>
    have hsort : (allDates lK bK).Sorted (· < ·) := allDates_sorted lK bK
    have hgt : ∀ x ∈ allDates lK bK, min d0 cutoff - 1 < x := by
      intro x hx
      rw [hd] at hx
      rcases List.mem_cons.mp hx with rfl | hx2
      · omega
      · have : d0 < x := List.rel_of_sorted_cons (hd ▸ hsort) x hx2
        omega
    have hlk : ∀ k ∈ lK, cutoff ≤ k → k ≤ min d0 cutoff - 1 ∨ k ∈ allDates lK bK :=
      fun k hk _ => Or.inr ((allDates_mem lK bK k).mpr (Or.inl hk))
    have hbk : ∀ k ∈ bK, cutoff ≤ k → k ≤ min d0 cutoff - 1 ∨ k ∈ allDates lK bK :=
      fun k hk _ => Or.inr ((allDates_mem lK bK k).mpr (Or.inr hk))
    have hL : (none : Option ℚ) = specLastAt lK lG cutoff (min d0 cutoff - 1) :=
      (specLastAt_none_short lK lG cutoff _ (by omega)).symm
    have hB : (none : Option ℚ) = specLastAt bK bG cutoff (min d0 cutoff - 1) :=
      (specLastAt_none_short bK bG cutoff _ (by omega)).symm
    exact mergeLoop_cells lG bG lK bK cutoff hLco hBco (allDates lK bK)
      (min d0 cutoff - 1) none none hsort hgt hlk hbk hL hB r hr

/-- C4: the union/forward-fill merge of `530symphs.py` — the emitted dates
are strictly ascending (one row per date) and are exactly the dates at/after
the cutoff present in either dictionary; each row's cell equals the side's
most recent dictionary value in the scan window `[cutoff, row.date]`; and a
cell is blank exactly when that side has no dictionary key in that window
(so a blank is never a forward-filled zero, and a filled cell never precedes
the side's first in-window sample). -/
theorem merge530_forward_fill_spec (tzSec cutoff : Int)
    (live : Option (List (Int × ℚ))) (bt : Option (List (Nat × ℚ))) :
    ((process530 tzSec cutoff live bt).map Row.date).Sorted (· < ·) ∧
    (∀ d : Int, d ∈ (process530 tzSec cutoff live bt).map Row.date ↔
      (cutoff ≤ d ∧ (d ∈ liveDaysOpt530 tzSec live ∨ d ∈ btKeysOpt530 bt))) ∧
    (∀ r ∈ process530 tzSec cutoff live bt,
      r.live = specLastAt (liveDaysOpt530 tzSec live) (livePctOpt530 tzSec live)
          cutoff r.date ∧
      r.backtest = specLastAt (btKeysOpt530 bt) (btPctOpt530 bt) cutoff r.date) ∧
    (∀ r ∈ process530 tzSec cutoff live bt,
      (r.live = none ↔
        ∀ k ∈ liveDaysOpt530 tzSec live, ¬(cutoff ≤ k ∧ k ≤ r.date)) ∧
      (r.backtest = none ↔
        ∀ k ∈ btKeysOpt530 bt, ¬(cutoff ≤ k ∧ k ≤ r.date))) := by
  have hLco := livePctOpt530_isSome_iff tzSec live
  have hBco := btPctOpt530_isSome_iff bt
  have hcells := merge530_cells (liveDaysOpt530 tzSec live) (btKeysOpt530 bt)
    (livePctOpt530 tzSec live) (btPctOpt530 bt) cutoff hLco hBco
  have hmap : (process530 tzSec cutoff live bt).map Row.date
      = (allDates (liveDaysOpt530 tzSec live) (btKeysOpt530 bt)).filter
          (fun d => decide (cutoff ≤ d)) :=
    mergeLoop_map_date _ _ _ _ _ _
  refine ⟨?_, ?_, fun r hr => hcells r hr, ?_⟩
  · rw [hmap]
    exact (allDates_sorted _ _).filter _
  · intro d
    rw [hmap, List.mem_filter]
    constructor
    · rintro ⟨h1, h2⟩
      exact ⟨of_decide_eq_true h2, (allDates_mem _ _ d).mp h1⟩
    · rintro ⟨h1, h2⟩
      exact ⟨(allDates_mem _ _ d).mpr h2, decide_eq_true h1⟩
  · intro r hr
    obtain ⟨hl, hb2⟩ := hcells r hr
    rw [hl, hb2]
    exact ⟨specLastAt_eq_none_iff _ _ cutoff r.date hLco,
      specLastAt_eq_none_iff _ _ cutoff r.date hBco⟩

/-- Witness for C4 at a concrete input (live samples on days 0 and 1, given
out of order; no backtest). -/
theorem merge530_forward_fill_spec_witness :
    (1 : Int) ∈ (process530 0 0 (some [(86400000, 110), (0, 100)]) none).map
      Row.date := by
  have h := (merge530_forward_fill_spec 0 0
    (some [(86400000, 110), (0, 100)]) none).2.1 1
  refine h.mpr ⟨by norm_num, Or.inl ?_⟩
  norm_num [liveDaysOpt530, liveDays530, liveBaseline530, sortPts, pairLe,
    dayOfMs530, Int.fdiv]
